import Mathlib

/-!
Verification of the ARM CoreSight TPIU frame demultiplexer (src/tpiu.rs).

Shallow embedding conventions:
* machine bytes (`u8`) and half-words (`u16`) are `Nat` with the reductions
  the Rust bit operations perform written out (`% 256`, `/ 2`, ...);
* the capture timestamp (`f64` in the source) is never inspected by the
  code, only carried through, so it is modelled by an arbitrary type `T`;
* a `frame` entry is the source's `(u8, f64, usize)` triple, i.e.
  `Nat × T × Nat` (byte, time, offset);
* fallible operations (slice indexing that can panic, `unwrap`,
  `unreachable!`, the illegal-transition `panic!`) return `Option`,
  with `none` for the panic;
* the packet callback is modelled by accumulating the emitted packets in
  a list; the driver's NULL-id filter is applied at the accumulation
  point exactly where the source's `filter` closure sits.
-/

set_option autoImplicit false

namespace TPIU

variable {T : Type}

/-! ## The `TPIUFrameHalfWord` bitfield

`bitfield!` on a `u16`: `data_or_aux` is bits 15..8, `data_or_id` is
bits 7..1, `f_control` is bit 0. -/

/-- The half-word value of `From<(u8, u8)>`:
`(value.1 as u16) << 8 | (value.0 as u16)`. -/
def halfWordVal (b0 b1 : Nat) : Nat := (b1 % 256) * 256 + b0 % 256

/-- Bits 15..8 of the half-word. -/
def data_or_aux (v : Nat) : Nat := v / 256 % 256

/-- Bits 7..1 of the half-word. -/
def data_or_id (v : Nat) : Nat := v / 2 % 128

/-- Bit 0 of the half-word. -/
def f_control (v : Nat) : Bool := v % 2 == 1

/-- Constant `TPIU_FRAME_SYNC`: the 4-byte frame synchronization pattern. -/
def TPIU_FRAME_SYNC : List Nat := [0xff, 0xff, 0xff, 0x7f]

/-- Constant `TPIU_ID_NULL`. -/
def TPIU_ID_NULL : Nat := 0

/-! ## Framing state machine -/

inductive TPIUState where
  | Searching
  | SearchingSyncing (next : Nat)
  | Framing
  | FramingSyncing (next : Nat)
deriving DecidableEq, Repr

/-- The first `match` of `tpiu_next_state` (computing `nstate`), with the
source's guard order preserved; indexing `sync[next]` out of bounds is the
panic case `none`. -/
def tpiu_nstate (state : TPIUState) (byte : Nat) : Option TPIUState :=
  match state with
  | .SearchingSyncing next =>
    match TPIU_FRAME_SYNC.get? next with
    | none => none
    | some s =>
      if byte ≠ s then some .Searching
      else if next + 1 < TPIU_FRAME_SYNC.length then some (.SearchingSyncing (next + 1))
      else some .Framing
  | .FramingSyncing next =>
    match TPIU_FRAME_SYNC.get? next with
    | none => none
    | some s =>
      if byte ≠ s then some .Searching
      else if next + 1 < TPIU_FRAME_SYNC.length then some (.FramingSyncing (next + 1))
      else some .Framing
  | .Searching =>
    match TPIU_FRAME_SYNC.get? 0 with
    | none => none
    | some s =>
      if byte ≠ s then some .Searching else some (.SearchingSyncing 1)
  | .Framing =>
    match TPIU_FRAME_SYNC.get? 0 with
    | none => none
    | some s =>
      if byte ≠ s then some .Framing else some (.FramingSyncing 1)

/-- The legality check at the end of `tpiu_next_state`: exactly the
enumerated `(state, nstate)` pairs of the second `match`. -/
def legalTransition : TPIUState → TPIUState → Bool
  | .Searching, .Searching => true
  | .Searching, .SearchingSyncing _ => true
  | .SearchingSyncing _, .Searching => true
  | .SearchingSyncing _, .Framing => true
  | .SearchingSyncing _, .SearchingSyncing _ => true
  | .Framing, .Framing => true
  | .Framing, .FramingSyncing _ => true
  | .FramingSyncing _, .Framing => true
  | .FramingSyncing _, .Searching => true
  | .FramingSyncing _, .FramingSyncing _ => true
  | _, _ => false

/-- Function `tpiu_next_state`: compute the next state, then panic (here: `none`)
on any transition outside the enumerated legal set. -/
def tpiu_next_state (state : TPIUState) (byte : Nat) : Option TPIUState :=
  match tpiu_nstate state byte with
  | none => none
  | some n => if legalTransition state n then some n else none

/-! ## Frame validation -/

/-- Byte `j` of the frame buffer (the `.0` component of entry `j`). -/
def byteAt (frame : List (Nat × T × Nat)) (j : Nat) : Nat :=
  ((frame.get? j).map (fun x => x.1)).getD 0

/-- The loop of `tpiu_check_frame`, counting down the remaining half-words
`n` while `i` is the current half-word index; `none` models a slice-index
panic (`frame[..]` or `valid[..]` out of bounds). -/
def tpiu_check_frame_loop (frame : List (Nat × T × Nat)) (valid : List Bool)
    (intermixed : Bool) : Nat → Nat → Option Bool
  | _, 0 => some true
  | i, n + 1 =>
    match frame.get? (i * 2), frame.get? (i * 2 + 1) with
    | some x, some y =>
      let half := halfWordVal x.1 y.1
      if f_control half then
        if data_or_id half == TPIU_ID_NULL then
          tpiu_check_frame_loop frame valid intermixed (i + 1) n
        else
          match valid.get? (data_or_id half) with
          | none => none
          | some ok =>
            if !ok || (decide (i > 0) && !intermixed) then some false
            else tpiu_check_frame_loop frame valid intermixed (i + 1) n
      else tpiu_check_frame_loop frame valid intermixed (i + 1) n
    | _, _ => none

/-- Function `tpiu_check_frame`: walk the `frame.len() / 2` half-words. -/
def tpiu_check_frame (frame : List (Nat × T × Nat)) (valid : List Bool)
    (intermixed : Bool) : Option Bool :=
  tpiu_check_frame_loop frame valid intermixed 0 (frame.length / 2)

/-- Function `tpiu_check_byte`: the byte as a `u16` half-word; `&&` short-circuits,
so `valid` is only indexed when the control bit is set. -/
def tpiu_check_byte (byte : Nat) (valid : List Bool) : Option Bool :=
  let check := byte % 65536
  if f_control check then valid.get? (data_or_id check) else some false

/-! ## Frame demultiplexer -/

structure TPIUPacket (T : Type) where
  id : Nat
  datum : Nat
  offset : Nat
  time : T
deriving DecidableEq, Repr

/-- The loop of `tpiu_process_frame`: `i` is the half-word index, the
second argument counts the remaining iterations (`last` iff it is 1), and
`current` is the running channel id.  Returns the packets handed to the
callback and the id returned from inside the loop.  Falling off the loop
is the source's `unreachable!()`, and `current.unwrap()` with no id is a
panic: both are `none`. -/
def tpiu_process_frame_loop (frame : List (Nat × T × Nat)) (auxv : Nat) :
    Nat → Nat → Option Nat → Option (List (TPIUPacket T) × Nat)
  | _, 0, _ => none
  | i, n + 1, current =>
    match frame.get? (i * 2), frame.get? (i * 2 + 1) with
    | some x, some y =>
      let half := halfWordVal x.1 y.1
      let auxbit := auxv / 2 ^ i % 2
      if f_control half then
        let pkt : TPIUPacket T :=
          { id := data_or_id half, datum := data_or_aux half,
            offset := y.2.2, time := y.2.1 }
        if n == 0 then
          some ([], pkt.id)
        else
          let delay := auxbit != 0
          let emitted : List (TPIUPacket T) :=
            if !delay then [pkt]
            else
              match current with
              | some c => [{ pkt with id := c }]
              | none => []
          match tpiu_process_frame_loop frame auxv (i + 1) n (some pkt.id) with
          | none => none
          | some r => some (emitted ++ r.1, r.2)
      else
        match current with
        | none => none
        | some id =>
          let p1 : TPIUPacket T :=
            { id := id, datum := data_or_id half * 2 % 256 + auxbit,
              offset := x.2.2, time := x.2.1 }
          if n == 0 then
            some ([p1], id)
          else
            let p2 : TPIUPacket T :=
              { id := id, datum := data_or_aux half,
                offset := y.2.2, time := y.2.1 }
            match tpiu_process_frame_loop frame auxv (i + 1) n (some id) with
            | none => none
            | some r => some (p1 :: p2 :: r.1, r.2)
    | _, _ => none

/-- Function `tpiu_process_frame`: the auxiliary vector is `data_or_aux` of the
half-word made from the frame's two final bytes, i.e. the final byte. -/
def tpiu_process_frame (frame : List (Nat × T × Nat)) (id : Option Nat) :
    Option (List (TPIUPacket T) × Nat) :=
  match frame.get? (frame.length - 1 - 1), frame.get? (frame.length - 1) with
  | some a, some b =>
    let auxv := data_or_aux (halfWordVal a.1 b.1)
    tpiu_process_frame_loop frame auxv 0 (frame.length / 2) id
  | _, _ => none

/-! ## Ingestion driver -/

/-- The loop state of `tpiu_ingest`.  The source's 16-slot buffer with
fill index `ndx` is modelled by the list of the `ndx` collected entries
(slots past `ndx` are never read before being overwritten).  `total` is a
ghost counter, not in the source: it counts every frame handed to the
demultiplexer, so that statements about the summary count can be made. -/
structure IngestState (T : Type) where
  state : TPIUState
  frame : List (Nat × T × Nat)
  nvalid : Nat
  id : Option Nat
  offs : Nat
  packets : List (TPIUPacket T)
  total : Nat
deriving Repr

/-- The scan `for check in 1..frame.len()` run on a completed invalid
frame while `Searching`; `rem` counts the remaining candidates
(`rem = frame.len() - check`).  The in-place copy-down loop leaves the
first `len - check` slots equal to `frame[check..]`, i.e. the buffer
contents are `frame.drop check`. -/
def tpiu_resync_scan (frame : List (Nat × T × Nat)) (valid : List Bool) :
    Nat → Nat → Option (List (Nat × T × Nat))
  | _, 0 => some []
  | check, rem + 1 =>
    match tpiu_check_byte (byteAt frame check) valid with
    | none => none
    | some true => some (frame.drop check)
    | some false => tpiu_resync_scan frame valid (check + 1) rem

/-- Handling of a completed frame in the `Searching` state
(`tpiu_ingest`, after `ndx == frame.len()`). -/
def tpiu_searching_complete (valid : List Bool) (st : IngestState T) :
    Option (IngestState T) :=
  match tpiu_check_frame st.frame valid true with
  | none => none
  | some true =>
    match tpiu_process_frame st.frame st.id with
    | none => none
    | some r =>
      some { st with state := .Framing, nvalid := 1, frame := [],
                     id := some r.2,
                     packets := st.packets ++ r.1.filter (fun p => p.id != TPIU_ID_NULL),
                     total := st.total + 1 }
  | some false =>
    match tpiu_resync_scan st.frame valid 1 (st.frame.length - 1) with
    | none => none
    | some rest => some { st with frame := rest }

/-- Handling of a completed frame in the `Framing` state. -/
def tpiu_framing_complete (valid : List Bool) (st : IngestState T) :
    Option (IngestState T) :=
  match tpiu_check_frame st.frame valid true with
  | none => none
  | some false =>
    if st.nvalid == 0 then
      some { st with state := .Searching, frame := [] }
    else
      some { st with nvalid := 0, frame := [] }
  | some true =>
    match tpiu_process_frame st.frame st.id with
    | none => none
    | some r =>
      some { st with nvalid := st.nvalid + 1, frame := [],
                     id := some r.2,
                     packets := st.packets ++ r.1.filter (fun p => p.id != TPIU_ID_NULL),
                     total := st.total + 1 }

/-- Append the byte to the buffer; on the 16th byte run the `Searching`
completed-frame handling. -/
def tpiu_searching_store (valid : List Bool) (st : IngestState T)
    (b : Nat) (t : T) : Option (IngestState T) :=
  let st2 := { st with frame := st.frame ++ [(b, t, st.offs)] }
  if st2.frame.length < 16 then some st2
  else tpiu_searching_complete valid st2

/-- Append the byte to the buffer; on the 16th byte run the `Framing`
completed-frame handling. -/
def tpiu_framing_store (valid : List Bool) (st : IngestState T)
    (b : Nat) (t : T) : Option (IngestState T) :=
  let st2 := { st with frame := st.frame ++ [(b, t, st.offs)] }
  if st2.frame.length < 16 then some st2
  else tpiu_framing_complete valid st2

/-- One iteration of the `loop` in `tpiu_ingest` for one `(byte, time)`
pair; the source's `unreachable!()` arms are `none`. -/
def tpiu_ingest_step (valid : List Bool) (st : IngestState T)
    (b : Nat) (t : T) : Option (IngestState T) :=
  let st := { st with offs := st.offs + 1 }
  match st.state with
  | .SearchingSyncing _ | .FramingSyncing _ =>
    match tpiu_next_state st.state b with
    | none => none
    | some ns => some { st with state := ns }
  | .Searching =>
    if st.frame.length == 0 then
      match tpiu_next_state st.state b with
      | none => none
      | some (.SearchingSyncing k) => some { st with state := .SearchingSyncing k }
      | some .Searching =>
        match tpiu_check_byte b valid with
        | none => none
        | some false => some st
        | some true => tpiu_searching_store valid st b t
      | some _ => none
    else tpiu_searching_store valid st b t
  | .Framing =>
    if st.frame.length == 0 then
      match tpiu_next_state st.state b with
      | none => none
      | some .Framing => tpiu_framing_store valid st b t
      | some (.FramingSyncing k) => some { st with state := .FramingSyncing k }
      | some _ => none
    else tpiu_framing_store valid st b t

/-- Fold the step over the remaining input; an empty source is the normal
`break` followed by the summary log and `Ok(())`. -/
def tpiu_ingest_loop (valid : List Bool) :
    IngestState T → List (Nat × T) → Option (IngestState T)
  | st, [] => some st
  | st, (b, t) :: rest =>
    match tpiu_ingest_step valid st b t with
    | none => none
    | some st2 => tpiu_ingest_loop valid st2 rest

/-- The initial loop state of `tpiu_ingest`. -/
def tpiu_ingest_init : IngestState T :=
  { state := .Searching, frame := [], nvalid := 0, id := none, offs := 0,
    packets := [], total := 0 }

/-- Run `tpiu_ingest` on a finite input, returning the final loop state. -/
def tpiu_ingest_run (valid : List Bool) (input : List (Nat × T)) :
    Option (IngestState T) :=
  tpiu_ingest_loop valid tpiu_ingest_init input

/-- Function `tpiu_ingest`: the packets delivered to the callback and the count in
the final `info!` summary. -/
def tpiu_ingest (valid : List Bool) (input : List (Nat × T)) :
    Option (List (TPIUPacket T) × Nat) :=
  (tpiu_ingest_run valid input).map (fun st => (st.packets, st.nvalid))


/-! ## Helper lemmas on the half-word fields -/

theorem f_control_halfWordVal (b0 b1 : Nat) :
    f_control (halfWordVal b0 b1) = decide (b0 % 2 = 1) := by
  simp only [f_control, halfWordVal]
  rw [show ((b1 % 256) * 256 + b0 % 256) % 2 = b0 % 2 by omega]
  rcases Nat.mod_two_eq_zero_or_one b0 with h | h <;> simp [h]

theorem data_or_aux_halfWordVal (b0 b1 : Nat) :
    data_or_aux (halfWordVal b0 b1) = b1 % 256 := by
  simp only [data_or_aux, halfWordVal]
  omega

theorem data_or_id_halfWordVal (b0 b1 : Nat) :
    data_or_id (halfWordVal b0 b1) = b0 % 256 / 2 := by
  simp only [data_or_id, halfWordVal]
  omega

theorem data_or_id_lt (v : Nat) : data_or_id v < 128 :=
  Nat.mod_lt _ (by norm_num)

/-! ## C5 -/

/-- C5 counterexample: for the stream-order byte pair `(1, 0)` the decoded
control bit is set although the second byte's low bit is clear, and
`data_or_aux` is the second byte `0`, not the first byte `1`.  Hence the
claim "the control bit is the low bit of the half-word's second byte and
`data_or_aux` is the half-word's first byte" is false. -/
theorem halfword_layout_cex :
    f_control (halfWordVal 1 0) = true ∧ ¬((0 : Nat) % 2 = 1) ∧
      data_or_aux (halfWordVal 1 0) = 0 ∧ (0 : Nat) ≠ 1 := by
  decide

/-- C5 amended: for every pair of frame bytes forming a half-word, the
decoded control bit is the low bit of the pair's FIRST byte, the 8-bit
`data_or_aux` field is the pair's SECOND byte, and `data_or_id` is the
remaining 7-bit field (bits 7..1 of the first byte). -/
theorem halfword_layout (b0 b1 : Nat) :
    f_control (halfWordVal b0 b1) = decide (b0 % 2 = 1) ∧
      data_or_aux (halfWordVal b0 b1) = b1 % 256 ∧
      data_or_id (halfWordVal b0 b1) = b0 % 256 / 2 :=
  ⟨f_control_halfWordVal b0 b1, data_or_aux_halfWordVal b0 b1,
    data_or_id_halfWordVal b0 b1⟩

/-! ## C1 -/

/-- The states reachable by the ingestion driver: `Searching`, `Framing`,
and the syncing states with progress counter in `1..3`. -/
def TPIUStateWF : TPIUState → Prop
  | .Searching => True
  | .SearchingSyncing k => 1 ≤ k ∧ k ≤ 3
  | .Framing => True
  | .FramingSyncing k => 1 ≤ k ∧ k ≤ 3

/-- C1: from every reachable state and for every input byte,
`tpiu_next_state` succeeds (the sync-pattern index is in bounds and the
fatal illegal-transition branch is not taken), the transition is in the
enumerated legal set, and the next state is again reachable. -/
theorem next_state_legal (s : TPIUState) (b : Nat) (hs : TPIUStateWF s) :
    ∃ ns, tpiu_next_state s b = some ns ∧ legalTransition s ns = true ∧
      TPIUStateWF ns := by
  cases s with
  | Searching =>
    by_cases hb : b = 255 <;>
      simp [tpiu_next_state, tpiu_nstate, TPIU_FRAME_SYNC, legalTransition,
        TPIUStateWF, hb]
  | Framing =>
    by_cases hb : b = 255 <;>
      simp [tpiu_next_state, tpiu_nstate, TPIU_FRAME_SYNC, legalTransition,
        TPIUStateWF, hb]
  | SearchingSyncing k =>
    obtain ⟨h1, h3⟩ := hs
    interval_cases k <;>
      [by_cases hb : b = 255; by_cases hb : b = 255; by_cases hb : b = 127] <;>
      simp [tpiu_next_state, tpiu_nstate, TPIU_FRAME_SYNC, legalTransition,
        TPIUStateWF, hb]
  | FramingSyncing k =>
    obtain ⟨h1, h3⟩ := hs
    interval_cases k <;>
      [by_cases hb : b = 255; by_cases hb : b = 255; by_cases hb : b = 127] <;>
      simp [tpiu_next_state, tpiu_nstate, TPIU_FRAME_SYNC, legalTransition,
        TPIUStateWF, hb]

/-- C1 witness: the theorem applied at the state `FramingSyncing 3` and
byte `0x7f`. -/
theorem next_state_legal_witness :
    ∃ ns, tpiu_next_state (.FramingSyncing 3) 127 = some ns ∧
      legalTransition (.FramingSyncing 3) ns = true ∧ TPIUStateWF ns :=
  next_state_legal (.FramingSyncing 3) 127 (by constructor <;> norm_num)


/-! ## C2 -/

/-- Half-word `j` of the frame buffer, decoded as the checks decode it. -/
def halfAt (frame : List (Nat × T × Nat)) (j : Nat) : Nat :=
  halfWordVal (byteAt frame (j * 2)) (byteAt frame (j * 2 + 1))

/-- The acceptance condition of C2 for half-word `j`: if its control bit
is set, the id is NULL, or it is in the membership table and occurs
either on the first half-word or with intermixing enabled. -/
abbrev hwOk (frame : List (Nat × T × Nat)) (valid : List Bool) (im : Bool)
    (j : Nat) : Prop :=
  f_control (halfAt frame j) = true →
    (data_or_id (halfAt frame j) = TPIU_ID_NULL ∨
      (valid.getD (data_or_id (halfAt frame j)) false = true ∧
        (j = 0 ∨ im = true)))

theorem getD_of_get? {l : List Bool} {n : Nat} {b : Bool}
    (h : l.get? n = some b) : l.getD n false = b := by
  rw [List.getD_eq_getElem?_getD, ← List.get?_eq_getElem?, h]
  rfl

theorem tpiu_check_frame_loop_iff (frame : List (Nat × T × Nat))
    (valid : List Bool) (im : Bool) (hv : 128 ≤ valid.length) :
    ∀ (n i : Nat), (i + n) * 2 ≤ frame.length →
      (tpiu_check_frame_loop frame valid im i n = some true ↔
        ∀ j, i ≤ j → j < i + n → hwOk frame valid im j) := by
  intro n
  induction n with
  | zero =>
    intro i _
    simp only [tpiu_check_frame_loop]
    constructor
    · intro _ j h1 h2
      exact absurd h2 (by omega)
    · intro _
      trivial
  | succ n ih =>
    intro i hb
    cases hx : frame.get? (i * 2) with
    | none =>
      exfalso
      rw [List.get?_eq_none] at hx
      omega
    | some x =>
    cases hy : frame.get? (i * 2 + 1) with
    | none =>
      exfalso
      rw [List.get?_eq_none] at hy
      omega
    | some y =>
    have hhalf : halfAt frame i = halfWordVal x.1 y.1 := by
      simp only [halfAt, byteAt, hx, hy, Option.map_some', Option.getD_some]
    simp only [tpiu_check_frame_loop, hx, hy]
    by_cases hc : f_control (halfWordVal x.1 y.1) = true
    · by_cases hid : data_or_id (halfWordVal x.1 y.1) = TPIU_ID_NULL
      · -- NULL id: the scan continues
        simp only [hc, if_true, hid, beq_self_eq_true, if_pos]
        rw [ih (i + 1) (by omega)]
        constructor
        · intro h j h1 h2
          rcases Nat.eq_or_lt_of_le h1 with rfl | hlt
          · intro _
            exact Or.inl (by rw [hhalf]; exact hid)
          · exact h j hlt (by omega)
        · intro h j h1 h2
          exact h j (by omega) (by omega)
      · -- non-NULL id: the membership table is consulted
        have hidlt : data_or_id (halfWordVal x.1 y.1) < 128 := data_or_id_lt _
        cases hok : valid.get? (data_or_id (halfWordVal x.1 y.1)) with
        | none =>
          exfalso
          rw [List.get?_eq_none] at hok
          omega
        | some ok =>
        have hgetD : valid.getD (data_or_id (halfWordVal x.1 y.1)) false = ok :=
          getD_of_get? hok
        simp only [hc, if_true, hok, beq_iff_eq, hid, if_false]
        by_cases hrej : (!ok || (decide (i > 0) && !im)) = true
        · -- rejected here
          rw [if_pos hrej]
          constructor
          · intro h
            exact absurd h (by simp)
          · intro h
            exfalso
            have hi := h i (Nat.le_refl i) (by omega)
            rcases hi (by rw [hhalf]; exact hc) with hid0 | ⟨hval, hfirst⟩
            · rw [hhalf] at hid0
              exact hid hid0
            · rw [hhalf, hgetD] at hval
              subst hval
              simp only [Bool.not_true, Bool.false_or, Bool.and_eq_true,
                decide_eq_true_eq, Bool.not_eq_true'] at hrej
              rcases hfirst with rfl | him
              · exact absurd hrej.1 (by omega)
              · rw [him] at hrej
                exact absurd hrej.2 (by decide)
        · -- accepted here: the scan continues
          rw [if_neg hrej, ih (i + 1) (by omega)]
          have hok2 : ok = true := by
            by_contra hfalse
            rw [Bool.not_eq_true] at hfalse
            rw [hfalse] at hrej
            exact hrej (by simp)
          have hcond : i = 0 ∨ im = true := by
            by_cases hi0 : i = 0
            · exact Or.inl hi0
            · right
              by_contra himf
              rw [Bool.not_eq_true] at himf
              refine hrej ?_
              simp only [hok2, himf, Bool.not_true, Bool.false_or,
                Bool.not_false, Bool.and_true, decide_eq_true_eq]
              omega
          constructor
          · intro h j h1 h2
            rcases Nat.eq_or_lt_of_le h1 with rfl | hlt
            · intro _
              refine Or.inr ⟨?_, hcond⟩
              rw [hhalf, hgetD]
              exact hok2
            · exact h j hlt (by omega)
          · intro h j h1 h2
            exact h j (by omega) (by omega)
    · -- control bit clear: never rejected
      rw [Bool.not_eq_true] at hc
      simp only [hc, Bool.false_eq_true, if_false]
      rw [ih (i + 1) (by omega)]
      constructor
      · intro h j h1 h2
        rcases Nat.eq_or_lt_of_le h1 with rfl | hlt
        · intro hctrl
          rw [hhalf, hc] at hctrl
          cases hctrl
        · exact h j hlt (by omega)
      · intro h j h1 h2
        exact h j (by omega) (by omega)

/-- C2: `tpiu_check_frame` accepts a 16-byte frame if and only if every
half-word with a set control bit carries the NULL id, or an id that is in
the membership table and either sits on the first half-word or is allowed
by the intermixing flag; half-words with a clear control bit never cause
rejection. -/
theorem check_frame_iff (frame : List (Nat × T × Nat)) (valid : List Bool)
    (im : Bool) (h16 : frame.length = 16) (hv : 128 ≤ valid.length) :
    tpiu_check_frame frame valid im = some true ↔
      ∀ j, j < 8 → hwOk frame valid im j := by
  have h := tpiu_check_frame_loop_iff frame valid im hv 8 0 (by omega)
  rw [tpiu_check_frame, h16]
  norm_num at h
  rw [h]

set_option maxRecDepth 4000 in
/-- C2 witness: a concrete frame with id 3 on half-word 0 is accepted. -/
theorem check_frame_iff_witness :
    tpiu_check_frame
        ([(7, (), 1), (0, (), 2), (0, (), 3), (0, (), 4), (0, (), 5),
          (0, (), 6), (0, (), 7), (0, (), 8), (0, (), 9), (0, (), 10),
          (0, (), 11), (0, (), 12), (0, (), 13), (0, (), 14), (0, (), 15),
          (0, (), 16)] : List (Nat × Unit × Nat))
        (List.replicate 128 true) true = some true :=
  (check_frame_iff _ _ _ (by decide) (by decide)).mpr (by decide)


/-! ## C10 -/

theorem tpiu_check_byte_isSome (valid : List Bool) (hv : 128 ≤ valid.length)
    (b : Nat) : (tpiu_check_byte b valid).isSome = true := by
  by_cases hc : f_control (b % 65536) = true
  · simp only [tpiu_check_byte, hc, if_true]
    have hlt : data_or_id (b % 65536) < 128 := data_or_id_lt _
    cases hok : valid.get? (data_or_id (b % 65536)) with
    | none =>
      exfalso
      rw [List.get?_eq_none] at hok
      omega
    | some ok => simp
  · rw [Bool.not_eq_true] at hc
    simp [tpiu_check_byte, hc]

theorem tpiu_check_frame_loop_isSome (frame : List (Nat × T × Nat))
    (valid : List Bool) (im : Bool) (hv : 128 ≤ valid.length) :
    ∀ (n i : Nat), (i + n) * 2 ≤ frame.length →
      (tpiu_check_frame_loop frame valid im i n).isSome = true := by
  intro n
  induction n with
  | zero =>
    intro i _
    rfl
  | succ n ih =>
    intro i hb
    cases hx : frame.get? (i * 2) with
    | none =>
      exfalso
      rw [List.get?_eq_none] at hx
      omega
    | some x =>
    cases hy : frame.get? (i * 2 + 1) with
    | none =>
      exfalso
      rw [List.get?_eq_none] at hy
      omega
    | some y =>
    simp only [tpiu_check_frame_loop, hx, hy]
    by_cases hc : f_control (halfWordVal x.1 y.1) = true
    · by_cases hid : data_or_id (halfWordVal x.1 y.1) = TPIU_ID_NULL
      · simp only [hc, if_true, hid, beq_self_eq_true, if_pos]
        exact ih (i + 1) (by omega)
      · cases hok : valid.get? (data_or_id (halfWordVal x.1 y.1)) with
        | none =>
          exfalso
          rw [List.get?_eq_none] at hok
          have := data_or_id_lt (halfWordVal x.1 y.1)
          omega
        | some ok =>
        simp only [hc, if_true, hok, beq_iff_eq, hid, if_false]
        by_cases hrej : (!ok || (decide (i > 0) && !im)) = true
        · rw [if_pos hrej]
          rfl
        · rw [if_neg hrej]
          exact ih (i + 1) (by omega)
    · rw [Bool.not_eq_true] at hc
      simp only [hc, Bool.false_eq_true, if_false]
      exact ih (i + 1) (by omega)

/-- C10: both checks index the membership table only at the 7-bit id, so a
table of length at least 128 is never indexed out of bounds, for any input
byte and any frame; a table shorter than 128 entries is indexed out of
bounds (a panic, modelled as `none`) for some input byte: `0xff` for the
byte check and a frame starting with `0xff` for the frame check. -/
theorem member_table_bounds (valid : List Bool) :
    (128 ≤ valid.length →
      (∀ b : Nat, (tpiu_check_byte b valid).isSome = true) ∧
      (∀ (frame : List (Nat × T × Nat)) (im : Bool),
        (tpiu_check_frame frame valid im).isSome = true)) ∧
    (valid.length < 128 →
      tpiu_check_byte 255 valid = none ∧
      (∀ t : T, tpiu_check_frame [(255, t, 0), (0, t, 0)] valid true = none)) := by
  constructor
  · intro hv
    refine ⟨tpiu_check_byte_isSome valid hv, fun frame im => ?_⟩
    exact tpiu_check_frame_loop_isSome frame valid im hv _ 0 (by omega)
  · intro hv
    have h127 : valid.get? 127 = none := List.get?_eq_none.mpr (by omega)
    constructor
    · show (if f_control (255 % 65536) then valid.get? (data_or_id (255 % 65536))
        else some false) = none
      norm_num [f_control, data_or_id]
      omega
    · intro t
      have h127g : valid[127]? = none := by
        rw [← List.get?_eq_getElem?]
        exact h127
      simp only [tpiu_check_frame]
      norm_num
      rw [show (1 : Nat) = 0 + 1 from rfl]
      simp only [tpiu_check_frame_loop, List.get?_cons_zero, List.get?_cons_succ]
      norm_num [halfWordVal, f_control, data_or_id, TPIU_ID_NULL, h127g]

/-- C10 witness: a 128-entry table is safe for a sample byte; a 100-entry
table is indexed out of bounds by byte `0xff`. -/
theorem member_table_bounds_witness :
    (tpiu_check_byte 77 (List.replicate 128 true)).isSome = true ∧
      tpiu_check_byte 255 (List.replicate 100 true) = none :=
  ⟨((member_table_bounds (T := Unit) (List.replicate 128 true)).1
      (by norm_num)).1 77,
   ((member_table_bounds (T := Unit) (List.replicate 100 true)).2
      (by norm_num)).1⟩


/-! ## C3 -/

/-- One-step unfolding of the demultiplexer loop (definitional). -/
theorem tpiu_process_frame_loop_step (frame : List (Nat × T × Nat))
    (auxv i n : Nat) (current : Option Nat) :
    tpiu_process_frame_loop frame auxv i (n + 1) current =
      match frame.get? (i * 2), frame.get? (i * 2 + 1) with
      | some x, some y =>
        let half := halfWordVal x.1 y.1
        let auxbit := auxv / 2 ^ i % 2
        if f_control half then
          let pkt : TPIUPacket T :=
            { id := data_or_id half, datum := data_or_aux half,
              offset := y.2.2, time := y.2.1 }
          if n == 0 then
            some ([], pkt.id)
          else
            let delay := auxbit != 0
            let emitted : List (TPIUPacket T) :=
              if !delay then [pkt]
              else
                match current with
                | some c => [{ pkt with id := c }]
                | none => []
            match tpiu_process_frame_loop frame auxv (i + 1) n (some pkt.id) with
            | none => none
            | some r => some (emitted ++ r.1, r.2)
        else
          match current with
          | none => none
          | some id =>
            let p1 : TPIUPacket T :=
              { id := id, datum := data_or_id half * 2 % 256 + auxbit,
                offset := x.2.2, time := x.2.1 }
            if n == 0 then
              some ([p1], id)
            else
              let p2 : TPIUPacket T :=
                { id := id, datum := data_or_aux half,
                  offset := y.2.2, time := y.2.1 }
              match tpiu_process_frame_loop frame auxv (i + 1) n (some id) with
              | none => none
              | some r => some (p1 :: p2 :: r.1, r.2)
      | _, _ => none := rfl

/-- C3: for a control-bit half-word at a non-last index `i` (at least two
iterations remain), `tpiu_process_frame` behaves as follows.  If the
auxiliary bit is clear, one packet with the new id and the half-word\'s
`data_or_aux` datum is emitted; if it is set and a current channel id
exists, the same datum is emitted under the old current id instead; if it
is set and no current channel id exists, no packet is emitted.  In all
three cases the processing of the rest of the frame continues with the
current channel id equal to the half-word\'s new id. -/
theorem process_frame_control_step (frame : List (Nat × T × Nat))
    (auxv i n : Nat) (current : Option Nat) (x y : Nat × T × Nat)
    (hx : frame.get? (i * 2) = some x) (hy : frame.get? (i * 2 + 1) = some y)
    (hc : f_control (halfWordVal x.1 y.1) = true) :
    (auxv / 2 ^ i % 2 = 0 →
      tpiu_process_frame_loop frame auxv i (n + 1 + 1) current =
        Option.map
          (fun r => ({ id := data_or_id (halfWordVal x.1 y.1),
                       datum := data_or_aux (halfWordVal x.1 y.1),
                       offset := y.2.2, time := y.2.1 } :: r.1, r.2))
          (tpiu_process_frame_loop frame auxv (i + 1) (n + 1)
            (some (data_or_id (halfWordVal x.1 y.1))))) ∧
    (∀ c, auxv / 2 ^ i % 2 ≠ 0 → current = some c →
      tpiu_process_frame_loop frame auxv i (n + 1 + 1) current =
        Option.map
          (fun r => ({ id := c,
                       datum := data_or_aux (halfWordVal x.1 y.1),
                       offset := y.2.2, time := y.2.1 } :: r.1, r.2))
          (tpiu_process_frame_loop frame auxv (i + 1) (n + 1)
            (some (data_or_id (halfWordVal x.1 y.1))))) ∧
    (auxv / 2 ^ i % 2 ≠ 0 → current = none →
      tpiu_process_frame_loop frame auxv i (n + 1 + 1) current =
        tpiu_process_frame_loop frame auxv (i + 1) (n + 1)
          (some (data_or_id (halfWordVal x.1 y.1)))) := by
  refine ⟨?_, ?_, ?_⟩
  · intro hbit
    rw [tpiu_process_frame_loop_step]
    simp only [hx, hy, hc, if_true, hbit]
    norm_num
    cases tpiu_process_frame_loop frame auxv (i + 1) (n + 1)
        (some (data_or_id (halfWordVal x.1 y.1))) with
    | none => rfl
    | some r => rfl
  · intro c hbit hcur
    subst hcur
    rw [tpiu_process_frame_loop_step]
    simp only [hx, hy, hc, if_true]
    rw [show (auxv / 2 ^ i % 2 != 0) = true by simpa using hbit]
    norm_num
    cases tpiu_process_frame_loop frame auxv (i + 1) (n + 1)
        (some (data_or_id (halfWordVal x.1 y.1))) with
    | none => rfl
    | some r => rfl
  · intro hbit hcur
    subst hcur
    rw [tpiu_process_frame_loop_step]
    simp only [hx, hy, hc, if_true]
    rw [show (auxv / 2 ^ i % 2 != 0) = true by simpa using hbit]
    norm_num
    cases tpiu_process_frame_loop frame auxv (i + 1) (n + 1)
        (some (data_or_id (halfWordVal x.1 y.1))) with
    | none => rfl
    | some r => rfl

/-- C3 witness: the theorem at half-word 0 of a concrete 2-half-word
frame, with the auxiliary bit set and a current channel id `5`. -/
theorem process_frame_control_step_witness :
    tpiu_process_frame_loop
        ([(3, (), 1), (9, (), 2), (0, (), 3), (0, (), 4)] :
          List (Nat × Unit × Nat)) 1 0 (0 + 1 + 1) (some 5) =
      Option.map
        (fun r => ({ id := 5,
                     datum := data_or_aux (halfWordVal 3 9),
                     offset := 2, time := () } :: r.1, r.2))
        (tpiu_process_frame_loop
          ([(3, (), 1), (9, (), 2), (0, (), 3), (0, (), 4)] :
            List (Nat × Unit × Nat)) 1 (0 + 1) (0 + 1)
          (some (data_or_id (halfWordVal 3 9)))) :=
  (process_frame_control_step
    ([(3, (), 1), (9, (), 2), (0, (), 3), (0, (), 4)] :
      List (Nat × Unit × Nat)) 1 0 0 (some 5) (3, (), 1) (9, (), 2)
    rfl rfl rfl).2.1 5 (by decide) rfl


/-! ## C4 -/

/-- C4 counterexample: two validated 16-byte frames that agree except in
the final byte\'s top bit -- which is exactly the auxiliary bit of
half-word 7 -- produce different demultiplexer output (the datum of the
last emitted packet differs), so the auxiliary bit of the last half-word
is NOT ignored entirely: for a control-clear last half-word it still
becomes the low bit of the emitted datum. -/
theorem process_frame_last_aux_cex :
    (List.replicate 16 ((0 : Nat), (), (0 : Nat))).take 15 =
      (List.replicate 15 ((0 : Nat), (), (0 : Nat)) ++ [(128, (), 0)]).take 15 ∧
    tpiu_check_frame (List.replicate 16 ((0 : Nat), (), (0 : Nat)))
      (List.replicate 128 true) true = some true ∧
    tpiu_check_frame (List.replicate 15 ((0 : Nat), (), (0 : Nat)) ++ [(128, (), 0)])
      (List.replicate 128 true) true = some true ∧
    tpiu_process_frame (List.replicate 16 ((0 : Nat), (), (0 : Nat))) (some 3) ≠
      tpiu_process_frame (List.replicate 15 ((0 : Nat), (), (0 : Nat)) ++ [(128, (), 0)])
        (some 3) := by
  decide

/-- C4 amended: for the last half-word of a frame (one iteration left),
the auxiliary bit is ignored for delayed-id purposes.  If the control bit
is set, no packet is emitted and the half-word\'s id is returned as the
new current channel id.  If the control bit is clear, exactly one packet
is emitted for the pair\'s first byte under the current channel id --
with the auxiliary bit still contributing the low bit of its datum --
and the unchanged current channel id is returned. -/
theorem process_frame_last_step (frame : List (Nat × T × Nat))
    (auxv i : Nat) (current : Option Nat) (x y : Nat × T × Nat)
    (hx : frame.get? (i * 2) = some x) (hy : frame.get? (i * 2 + 1) = some y) :
    (f_control (halfWordVal x.1 y.1) = true →
      tpiu_process_frame_loop frame auxv i (0 + 1) current =
        some ([], data_or_id (halfWordVal x.1 y.1))) ∧
    (∀ c, f_control (halfWordVal x.1 y.1) = false → current = some c →
      tpiu_process_frame_loop frame auxv i (0 + 1) current =
        some ([{ id := c,
                 datum := data_or_id (halfWordVal x.1 y.1) * 2 % 256 +
                   auxv / 2 ^ i % 2,
                 offset := x.2.2, time := x.2.1 }], c)) := by
  constructor
  · intro hc
    rw [tpiu_process_frame_loop_step]
    simp only [hx, hy, hc, if_true]
    norm_num
  · intro c hc hcur
    subst hcur
    rw [tpiu_process_frame_loop_step]
    simp only [hx, hy, hc]
    norm_num

/-- C4 witness: the theorem at the last half-word of a concrete frame,
control bit clear, current channel id `9`, auxiliary bit set. -/
theorem process_frame_last_step_witness :
    (f_control (halfWordVal 4 7) = true →
      tpiu_process_frame_loop ([(4, (), 3), (7, (), 4)] :
          List (Nat × Unit × Nat)) 128 0 (0 + 1) (some 9) =
        some ([], data_or_id (halfWordVal 4 7))) ∧
    (∀ c, f_control (halfWordVal 4 7) = false → (some 9 : Option Nat) = some c →
      tpiu_process_frame_loop ([(4, (), 3), (7, (), 4)] :
          List (Nat × Unit × Nat)) 128 0 (0 + 1) (some 9) =
        some ([{ id := c,
                 datum := data_or_id (halfWordVal 4 7) * 2 % 256 +
                   128 / 2 ^ 0 % 2,
                 offset := 3, time := () }], c)) :=
  process_frame_last_step ([(4, (), 3), (7, (), 4)] :
    List (Nat × Unit × Nat)) 128 0 (some 9) (4, (), 3) (7, (), 4) rfl rfl


/-! ## C6 -/

/-- C6 counterexample: two validated 16-byte frames that agree except in
the final byte\'s LOW bit (bit 0, which is outside the byte\'s top 7 bits)
produce different demultiplexer output: the code draws the auxiliary bit
for half-word `i` from bit `i` of the final byte, so bit 0 -- not a top
bit -- controls half-word 0\'s delayed-id behaviour.  Under the claim
(auxiliary vector taken from the top 7 bits) both outputs would agree. -/
theorem process_frame_aux_vector_cex :
    tpiu_check_frame
      ((3, (), 0) :: List.replicate 13 ((0 : Nat), (), (0 : Nat)) ++
        [(5, (), 0), (0, (), 0)]) (List.replicate 128 true) true = some true ∧
    tpiu_check_frame
      ((3, (), 0) :: List.replicate 13 ((0 : Nat), (), (0 : Nat)) ++
        [(5, (), 0), (1, (), 0)]) (List.replicate 128 true) true = some true ∧
    tpiu_process_frame
      ((3, (), 0) :: List.replicate 13 ((0 : Nat), (), (0 : Nat)) ++
        [(5, (), 0), (0, (), 0)]) (some 7) ≠
      tpiu_process_frame
        ((3, (), 0) :: List.replicate 13 ((0 : Nat), (), (0 : Nat)) ++
          [(5, (), 0), (1, (), 0)]) (some 7) := by
  decide

/-- Every packet emitted by the demultiplexer loop takes its timestamp and
offset from a frame entry strictly before position `(i + n) * 2 - 1`; in
particular the loop never emits a packet for the frame\'s final byte. -/
theorem tpiu_process_frame_loop_sources (frame : List (Nat × T × Nat))
    (auxv : Nat) :
    ∀ (n i : Nat) (current : Option Nat) (r : List (TPIUPacket T) × Nat),
      tpiu_process_frame_loop frame auxv i n current = some r →
      ∀ p ∈ r.1, ∃ j z, j + 2 ≤ (i + n) * 2 ∧ frame.get? j = some z ∧
        p.offset = z.2.2 ∧ p.time = z.2.1 := by
  intro n
  induction n with
  | zero =>
    intro i current r h
    cases h
  | succ n ih =>
    intro i current r h
    rw [tpiu_process_frame_loop_step] at h
    cases hx : frame.get? (i * 2) with
    | none =>
      rw [hx] at h
      cases hy : frame.get? (i * 2 + 1) with
      | none => rw [hy] at h; cases h
      | some y => rw [hy] at h; cases h
    | some x =>
    cases hy : frame.get? (i * 2 + 1) with
    | none => rw [hx, hy] at h; cases h
    | some y =>
    rw [hx, hy] at h
    simp only at h
    by_cases hc : f_control (halfWordVal x.1 y.1) = true
    · simp only [hc, eq_self_iff_true, if_true] at h
      by_cases hn : n = 0
      · subst hn
        simp only [beq_self_eq_true, eq_self_iff_true, if_true] at h
        cases h
        intro p hp
        cases hp
      · rw [show (n == 0) = false by simpa using hn] at h
        simp only [Bool.false_eq_true, if_false] at h
        cases hrec : tpiu_process_frame_loop frame auxv (i + 1) n
            (some (data_or_id (halfWordVal x.1 y.1))) with
        | none => rw [hrec] at h; cases h
        | some r2 =>
          rw [hrec] at h
          cases h
          intro p hp
          rw [List.mem_append] at hp
          rcases hp with hp | hp
          · refine ⟨i * 2 + 1, y, by omega, hy, ?_⟩
            by_cases hd : (auxv / 2 ^ i % 2 != 0) = true
            · rw [hd] at hp
              simp only [Bool.not_true, Bool.false_eq_true, if_false] at hp
              cases current with
              | none => cases hp
              | some c =>
                simp only [List.mem_singleton] at hp
                subst hp
                exact ⟨rfl, rfl⟩
            · rw [show (auxv / 2 ^ i % 2 != 0) = false by simpa using hd] at hp
              simp only [Bool.not_false, eq_self_iff_true, if_true,
                List.mem_singleton] at hp
              subst hp
              exact ⟨rfl, rfl⟩
          · obtain ⟨j, z, hj, hz, ho, ht⟩ := ih (i + 1) _ r2 hrec p hp
            exact ⟨j, z, by omega, hz, ho, ht⟩
    · rw [Bool.not_eq_true] at hc
      rw [hc] at h
      simp only [Bool.false_eq_true, if_false] at h
      cases current with
      | none => cases h
      | some c =>
        simp only at h
        by_cases hn : n = 0
        · subst hn
          simp only [beq_self_eq_true, eq_self_iff_true, if_true] at h
          cases h
          intro p hp
          simp only [List.mem_singleton] at hp
          subst hp
          exact ⟨i * 2, x, by omega, hx, rfl, rfl⟩
        · rw [show (n == 0) = false by simpa using hn] at h
          simp only [Bool.false_eq_true, if_false] at h
          cases hrec : tpiu_process_frame_loop frame auxv (i + 1) n (some c) with
          | none => rw [hrec] at h; cases h
          | some r2 =>
            rw [hrec] at h
            cases h
            intro p hp
            rcases List.mem_cons.mp hp with hp | hp
            · subst hp
              exact ⟨i * 2, x, by omega, hx, rfl, rfl⟩
            rcases List.mem_cons.mp hp with hp | hp
            · subst hp
              exact ⟨i * 2 + 1, y, by omega, hy, rfl, rfl⟩
            · obtain ⟨j, z, hj, hz, ho, ht⟩ := ih (i + 1) _ r2 hrec p hp
              exact ⟨j, z, by omega, hz, ho, ht⟩

/-- C6 amended: for a 16-byte frame, the auxiliary vector applied by
`tpiu_process_frame` is the frame\'s final byte, with BIT `i` (of its low
7 bits, for the 7 half-words that use it) corresponding to half-word `i`
-- the loop reads `auxv / 2 ^ i % 2` -- and no emitted packet ever stems
from the final byte (every packet\'s time and offset come from an entry
at index below 15). -/
theorem process_frame_aux_vector (frame : List (Nat × T × Nat))
    (id : Option Nat) (h16 : frame.length = 16) :
    tpiu_process_frame frame id =
      tpiu_process_frame_loop frame (byteAt frame 15 % 256) 0 8 id ∧
    (∀ r, tpiu_process_frame frame id = some r →
      ∀ p ∈ r.1, ∃ j z, j < 15 ∧ frame.get? j = some z ∧
        p.offset = z.2.2 ∧ p.time = z.2.1) := by
  cases ha : frame.get? 14 with
  | none =>
    exfalso
    rw [List.get?_eq_none] at ha
    omega
  | some a =>
  cases hb : frame.get? 15 with
  | none =>
    exfalso
    rw [List.get?_eq_none] at hb
    omega
  | some b =>
  have hform : tpiu_process_frame frame id =
      tpiu_process_frame_loop frame (byteAt frame 15 % 256) 0 8 id := by
    simp only [tpiu_process_frame, h16,
      show (16 : Nat) - 1 - 1 = 14 from rfl, show (16 : Nat) - 1 = 15 from rfl,
      show (16 : Nat) / 2 = 8 from rfl, ha, hb]
    simp only [data_or_aux_halfWordVal, byteAt, hb, Option.map_some',
      Option.getD_some]
  refine ⟨hform, fun r hr p hp => ?_⟩
  rw [hform] at hr
  obtain ⟨j, z, hj, hz, ho, ht⟩ :=
    tpiu_process_frame_loop_sources frame (byteAt frame 15 % 256) 8 0 id r hr p hp
  exact ⟨j, z, by omega, hz, ho, ht⟩

/-- C6 witness: the theorem at a concrete all-zero validated frame. -/
theorem process_frame_aux_vector_witness :
    tpiu_process_frame (List.replicate 16 ((0 : Nat), (), (0 : Nat))) (some 3) =
      tpiu_process_frame_loop (List.replicate 16 ((0 : Nat), (), (0 : Nat)))
        (byteAt (List.replicate 16 ((0 : Nat), (), (0 : Nat))) 15 % 256) 0 8
        (some 3) :=
  (process_frame_aux_vector (List.replicate 16 ((0 : Nat), (), (0 : Nat)))
    (some 3) (by decide)).1


/-! ## C7 -/

/-- Characterization of the resync scan `for check in 1..frame.len()`:
either some candidate in `[c, c + rem)` passes the byte check -- and at
the first such index `j` the retained buffer is `frame.drop j` -- or no
candidate passes and the buffer is emptied. -/
theorem tpiu_resync_scan_spec (frame : List (Nat × T × Nat))
    (valid : List Bool) (hv : 128 ≤ valid.length) :
    ∀ (rem c : Nat),
      (∃ j, c ≤ j ∧ j < c + rem ∧
        tpiu_check_byte (byteAt frame j) valid = some true ∧
        (∀ k, c ≤ k → k < j →
          tpiu_check_byte (byteAt frame k) valid = some false) ∧
        tpiu_resync_scan frame valid c rem = some (frame.drop j)) ∨
      ((∀ k, c ≤ k → k < c + rem →
          tpiu_check_byte (byteAt frame k) valid = some false) ∧
        tpiu_resync_scan frame valid c rem = some []) := by
  intro rem
  induction rem with
  | zero =>
    intro c
    right
    exact ⟨fun k h1 h2 => absurd h2 (by omega), rfl⟩
  | succ rem ih =>
    intro c
    have hs := tpiu_check_byte_isSome valid hv (byteAt frame c)
    cases hcb : tpiu_check_byte (byteAt frame c) valid with
    | none =>
      rw [hcb] at hs
      cases hs
    | some b =>
      cases b with
      | true =>
        left
        refine ⟨c, Nat.le_refl c, by omega, hcb,
          fun k h1 h2 => absurd h2 (by omega), ?_⟩
        simp only [tpiu_resync_scan, hcb]
      | false =>
        rcases ih (c + 1) with ⟨j, h1, h2, h3, h4, h5⟩ | ⟨h4, h5⟩
        · left
          refine ⟨j, by omega, by omega, h3, ?_, ?_⟩
          · intro k hk1 hk2
            rcases Nat.eq_or_lt_of_le hk1 with rfl | hk
            · exact hcb
            · exact h4 k hk hk2
          · simp only [tpiu_resync_scan, hcb]
            exact h5
        · right
          refine ⟨?_, ?_⟩
          · intro k hk1 hk2
            rcases Nat.eq_or_lt_of_le hk1 with rfl | hk
            · exact hcb
            · exact h4 k hk (by omega)
          · simp only [tpiu_resync_scan, hcb]
            exact h5

/-- C7: when a completed 16-byte buffer fails the frame check while
`Searching`, the driver scans candidate start indices `1..16` in order,
applies the single-byte check to each, and at the first passing index `c`
shifts the bytes from `c` onward to the front of the buffer, retaining
exactly `16 - c` bytes; if no candidate passes, the buffer is fully
discarded.  The state is unchanged (still `Searching`), no packets are
emitted, and the counters are untouched. -/
theorem searching_resync (valid : List Bool) (st : IngestState T)
    (h16 : st.frame.length = 16) (hv : 128 ≤ valid.length)
    (hfail : tpiu_check_frame st.frame valid true = some false) :
    ∃ st2, tpiu_searching_complete valid st = some st2 ∧
      st2.state = st.state ∧ st2.packets = st.packets ∧
      st2.nvalid = st.nvalid ∧ st2.id = st.id ∧
      ((∃ c, 1 ≤ c ∧ c < 16 ∧
          tpiu_check_byte (byteAt st.frame c) valid = some true ∧
          (∀ k, 1 ≤ k → k < c →
            tpiu_check_byte (byteAt st.frame k) valid = some false) ∧
          st2.frame = st.frame.drop c ∧ st2.frame.length = 16 - c) ∨
       ((∀ k, 1 ≤ k → k < 16 →
          tpiu_check_byte (byteAt st.frame k) valid = some false) ∧
        st2.frame = [])) := by
  rcases tpiu_resync_scan_spec st.frame valid hv 15 1
    with ⟨j, h1, h2, h3, h4, h5⟩ | ⟨h4, h5⟩
  · refine ⟨{ st with frame := st.frame.drop j }, ?_, rfl, rfl, rfl, rfl, ?_⟩
    · simp only [tpiu_searching_complete, hfail, h16,
        show (16 : Nat) - 1 = 15 from rfl, h5]
    · left
      refine ⟨j, h1, by omega, h3, h4, rfl, ?_⟩
      simp only [List.length_drop, h16]
  · refine ⟨{ st with frame := [] }, ?_, rfl, rfl, rfl, rfl, ?_⟩
    · simp only [tpiu_searching_complete, hfail, h16,
        show (16 : Nat) - 1 = 15 from rfl, h5]
    · right
      exact ⟨fun k hk1 hk2 => h4 k hk1 (by omega), rfl⟩

set_option maxRecDepth 8000 in
/-- C7 witness: the theorem at a concrete invalid frame none of whose
later bytes passes the byte check, so the buffer is fully discarded. -/
theorem searching_resync_witness :
    ∃ st2, tpiu_searching_complete (List.replicate 128 false)
        ({ state := .Searching,
           frame := (5, (), 1) :: List.replicate 15 ((0 : Nat), (), (0 : Nat)),
           nvalid := 0, id := none, offs := 16, packets := [], total := 0 } :
          IngestState Unit) = some st2 ∧
      st2.state = TPIUState.Searching ∧ st2.packets = [] ∧
      st2.nvalid = 0 ∧ st2.id = none ∧
      ((∃ c, 1 ≤ c ∧ c < 16 ∧
          tpiu_check_byte (byteAt
            ((5, (), 1) :: List.replicate 15 ((0 : Nat), (), (0 : Nat))) c)
            (List.replicate 128 false) = some true ∧
          (∀ k, 1 ≤ k → k < c →
            tpiu_check_byte (byteAt
              ((5, (), 1) :: List.replicate 15 ((0 : Nat), (), (0 : Nat))) k)
              (List.replicate 128 false) = some false) ∧
          st2.frame =
            ((5, (), 1) :: List.replicate 15 ((0 : Nat), (), (0 : Nat))).drop c ∧
          st2.frame.length = 16 - c) ∨
       ((∀ k, 1 ≤ k → k < 16 →
          tpiu_check_byte (byteAt
            ((5, (), 1) :: List.replicate 15 ((0 : Nat), (), (0 : Nat))) k)
            (List.replicate 128 false) = some false) ∧
        st2.frame = [])) :=
  searching_resync (List.replicate 128 false) _ (by decide) (by decide)
    (by decide)

/-! ## C8 -/

/-- C8: for a completed frame in the `Framing` state: if the frame check
fails, no packets are emitted, the buffer restarts empty, the
consecutive-valid counter resets to 0, and the state becomes `Searching`
exactly when the counter was already 0 (otherwise it is unchanged, i.e.
remains `Framing`); if the check passes, the counter is incremented and
the frame is demultiplexed, appending its packets. -/
theorem framing_frame_outcome (valid : List Bool) (st : IngestState T) :
    (tpiu_check_frame st.frame valid true = some false →
      tpiu_framing_complete valid st =
        some { st with
               state := if st.nvalid = 0 then .Searching else st.state,
               nvalid := 0, frame := [] }) ∧
    (∀ r, tpiu_check_frame st.frame valid true = some true →
      tpiu_process_frame st.frame st.id = some r →
      tpiu_framing_complete valid st =
        some { st with
               nvalid := st.nvalid + 1, frame := [], id := some r.2,
               packets := st.packets ++
                 r.1.filter (fun p => p.id != TPIU_ID_NULL),
               total := st.total + 1 }) := by
  constructor
  · intro hfail
    simp only [tpiu_framing_complete, hfail]
    by_cases h0 : st.nvalid = 0
    · rw [show (st.nvalid == 0) = true by simpa using h0]
      simp [h0]
    · rw [show (st.nvalid == 0) = false by simpa using h0]
      simp [h0]
  · intro r hok hproc
    simp only [tpiu_framing_complete, hok, hproc]

/-- C8 witness: the theorem\'s failure case at a concrete state with
counter 1: the counter resets and the state stays `Framing`. -/
theorem framing_frame_outcome_witness :
    tpiu_framing_complete (List.replicate 128 false)
        ({ state := .Framing,
           frame := (5, (), 1) :: List.replicate 15 ((0 : Nat), (), (0 : Nat)),
           nvalid := 1, id := some 3, offs := 16, packets := [], total := 1 } :
          IngestState Unit) =
      some { state := (if (1 : Nat) = 0 then TPIUState.Searching
               else TPIUState.Framing),
             frame := [], nvalid := 0, id := some 3, offs := 16,
             packets := [], total := 1 } :=
  (framing_frame_outcome (List.replicate 128 false) _).1 (by decide)


/-! ## C9 -/

theorem tpiu_searching_complete_counts (valid : List Bool)
    (st st2 : IngestState T) (h : tpiu_searching_complete valid st = some st2)
    (inv : st.nvalid ≤ st.total) : st2.nvalid ≤ st2.total := by
  simp only [tpiu_searching_complete] at h
  cases hcf : tpiu_check_frame st.frame valid true with
  | none =>
    rw [hcf] at h
    cases h
  | some b =>
    rw [hcf] at h
    cases b with
    | true =>
      cases hp : tpiu_process_frame st.frame st.id with
      | none =>
        rw [hp] at h
        cases h
      | some r =>
        rw [hp] at h
        cases h
        show 1 ≤ st.total + 1
        omega
    | false =>
      cases hs : tpiu_resync_scan st.frame valid 1 (st.frame.length - 1) with
      | none =>
        rw [hs] at h
        cases h
      | some rest =>
        rw [hs] at h
        cases h
        exact inv

theorem tpiu_framing_complete_counts (valid : List Bool)
    (st st2 : IngestState T) (h : tpiu_framing_complete valid st = some st2)
    (inv : st.nvalid ≤ st.total) : st2.nvalid ≤ st2.total := by
  simp only [tpiu_framing_complete] at h
  cases hcf : tpiu_check_frame st.frame valid true with
  | none =>
    rw [hcf] at h
    cases h
  | some b =>
    rw [hcf] at h
    cases b with
    | false =>
      by_cases h0 : st.nvalid = 0
      · rw [show (st.nvalid == 0) = true by simpa using h0] at h
        simp only [if_true, eq_self_iff_true] at h
        cases h
        exact inv
      · rw [show (st.nvalid == 0) = false by simpa using h0] at h
        simp only [Bool.false_eq_true, if_false] at h
        cases h
        show 0 ≤ st.total
        omega
    | true =>
      cases hp : tpiu_process_frame st.frame st.id with
      | none =>
        rw [hp] at h
        cases h
      | some r =>
        rw [hp] at h
        cases h
        show st.nvalid + 1 ≤ st.total + 1
        omega

theorem tpiu_searching_store_counts (valid : List Bool)
    (st st2 : IngestState T) (b : Nat) (t : T)
    (h : tpiu_searching_store valid st b t = some st2)
    (inv : st.nvalid ≤ st.total) : st2.nvalid ≤ st2.total := by
  simp only [tpiu_searching_store] at h
  split at h
  · cases h
    exact inv
  · exact tpiu_searching_complete_counts valid _ st2 h inv

theorem tpiu_framing_store_counts (valid : List Bool)
    (st st2 : IngestState T) (b : Nat) (t : T)
    (h : tpiu_framing_store valid st b t = some st2)
    (inv : st.nvalid ≤ st.total) : st2.nvalid ≤ st2.total := by
  simp only [tpiu_framing_store] at h
  split at h
  · cases h
    exact inv
  · exact tpiu_framing_complete_counts valid _ st2 h inv

theorem tpiu_ingest_step_counts (valid : List Bool) (st st2 : IngestState T)
    (b : Nat) (t : T) (h : tpiu_ingest_step valid st b t = some st2)
    (inv : st.nvalid ≤ st.total) : st2.nvalid ≤ st2.total := by
  rcases st with ⟨state, frame, nvalid, id, offs, packets, total⟩
  cases state with
  | SearchingSyncing k =>
    simp only [tpiu_ingest_step] at h
    cases hn : tpiu_next_state (.SearchingSyncing k) b with
    | none =>
      rw [hn] at h
      cases h
    | some ns =>
      rw [hn] at h
      cases h
      exact inv
  | FramingSyncing k =>
    simp only [tpiu_ingest_step] at h
    cases hn : tpiu_next_state (.FramingSyncing k) b with
    | none =>
      rw [hn] at h
      cases h
    | some ns =>
      rw [hn] at h
      cases h
      exact inv
  | Searching =>
    simp only [tpiu_ingest_step] at h
    split at h
    · cases hn : tpiu_next_state .Searching b with
      | none =>
        rw [hn] at h
        cases h
      | some ns =>
        rw [hn] at h
        cases ns with
        | SearchingSyncing k =>
          simp only at h
          cases h
          exact inv
        | Searching =>
          simp only at h
          cases hcb : tpiu_check_byte b valid with
          | none =>
            rw [hcb] at h
            cases h
          | some cb =>
            rw [hcb] at h
            cases cb with
            | false =>
              simp only at h
              cases h
              exact inv
            | true =>
              simp only at h
              exact tpiu_searching_store_counts valid _ st2 b t h inv
        | Framing =>
          simp only at h
          cases h
        | FramingSyncing k =>
          simp only at h
          cases h
    · exact tpiu_searching_store_counts valid _ st2 b t h inv
  | Framing =>
    simp only [tpiu_ingest_step] at h
    split at h
    · cases hn : tpiu_next_state .Framing b with
      | none =>
        rw [hn] at h
        cases h
      | some ns =>
        rw [hn] at h
        cases ns with
        | Framing =>
          simp only at h
          exact tpiu_framing_store_counts valid _ st2 b t h inv
        | FramingSyncing k =>
          simp only at h
          cases h
          exact inv
        | Searching =>
          simp only at h
          cases h
        | SearchingSyncing k =>
          simp only at h
          cases h
    · exact tpiu_framing_store_counts valid _ st2 b t h inv

theorem tpiu_ingest_loop_counts (valid : List Bool) :
    ∀ (input : List (Nat × T)) (st st2 : IngestState T),
      tpiu_ingest_loop valid st input = some st2 → st.nvalid ≤ st.total →
      st2.nvalid ≤ st2.total := by
  intro input
  induction input with
  | nil =>
    intro st st2 h inv
    simp only [tpiu_ingest_loop] at h
    cases h
    exact inv
  | cons bt rest ih =>
    intro st st2 h inv
    rcases bt with ⟨b, t⟩
    simp only [tpiu_ingest_loop] at h
    cases hstep : tpiu_ingest_step valid st b t with
    | none =>
      rw [hstep] at h
      cases h
    | some stm =>
      rw [hstep] at h
      exact ih stm st2 h (tpiu_ingest_step_counts valid st stm b t hstep inv)

/-- C9 counterexample: a run whose first 16 bytes form a valid frame and
whose next 16 bytes form an invalid frame.  One valid frame is processed
in total (the ghost counter is 1), yet the count reported in the final
summary is the consecutive-valid counter, which the invalid frame reset
to 0 -- so the reported count does not equal the total number of valid
frames processed over the run. -/
theorem ingest_summary_count_cex :
    Option.map (fun st => (st.nvalid, st.total))
        (tpiu_ingest_run ((List.replicate 128 false).set 1 true)
          (((3 :: List.replicate 15 0) ++ (5 :: List.replicate 15 0)).map
            (fun b => (b, ())))) = some (0, 1) ∧ (0 : Nat) ≠ 1 := by
  constructor
  · decide
  · decide

/-- C9 amended: when the byte source reports end of stream and no
internal invariant violation occurred during the run, `tpiu_ingest`
returns `Ok` with the summary count equal to the final value of the
consecutive-valid-frame counter; that count never exceeds the total
number of valid frames processed over the run (and can be smaller). -/
theorem ingest_summary_count (valid : List Bool) (input : List (Nat × T))
    (st : IngestState T) (h : tpiu_ingest_run valid input = some st) :
    tpiu_ingest valid input = some (st.packets, st.nvalid) ∧
      st.nvalid ≤ st.total := by
  constructor
  · simp [tpiu_ingest, h]
  · exact tpiu_ingest_loop_counts valid input tpiu_ingest_init st h
      (Nat.le_refl 0)

/-- C9 witness: the theorem on the empty input stream. -/
theorem ingest_summary_count_witness :
    tpiu_ingest ([] : List Bool) ([] : List (Nat × Unit)) =
      some ((tpiu_ingest_init (T := Unit)).packets,
        (tpiu_ingest_init (T := Unit)).nvalid) ∧
      (tpiu_ingest_init (T := Unit)).nvalid ≤
        (tpiu_ingest_init (T := Unit)).total :=
  ingest_summary_count [] [] tpiu_ingest_init rfl

end TPIU
